import Mathlib

/-!
Shallow embedding of the core state/locking/orchestration layer of the
`openskill` CLI (src/core/manifest.ts, src/core/registry.ts and the install
command's orchestration loop), together with proofs about the claims on the
manifest invariants, the lock primitive, atomic persistence, migration, the
repository cache and install rollback.

Conventions used throughout:
* JavaScript numbers that hold integral values (PIDs, `Date.now()` timestamps,
  schema versions) are modelled as `Int`.
* Strings are Lean `String`s; all string scanning is done on the underlying
  `List Char` so every definition reduces in the kernel.
* Filesystem state is modelled per concern: the manifest file at the byte level
  as `String → Option String` (for the temp-file/rename atomicity claim), and
  at the document level as `StoredFile` (absent / unreadable-or-invalid /
  parsed document), matching the observable behavior of `loadManifest`.
-/

namespace OpenSkill

/-- Install scope, `InstallScope` in src/agents/types.ts: `"project" | "global"`. -/
inductive Scope where
  | project
  | global
deriving DecidableEq

/-- One row of the manifest, `InstalledSkillRecord` in src/core/manifest.ts. -/
structure InstalledSkillRecord where
  name : String
  agent : String
  repoOwner : String
  repoName : String
  repoPath : Option String
  commitHash : String
  installedAt : String
  scope : Option Scope
deriving DecidableEq

/-- The persisted manifest document, `Manifest` in src/core/manifest.ts. -/
structure Manifest where
  version : Int
  skills : List InstalledSkillRecord
deriving DecidableEq

/-- Constant `MANIFEST_VERSION` in src/core/manifest.ts. -/
def MANIFEST_VERSION : Int := 1

/-- The JavaScript expression `s.scope ?? "project"` used by every
key-matching site in src/core/manifest.ts. -/
def scopeOrProject (s : Option Scope) : Scope := s.getD Scope.project

/-- The key predicate `s.name === name && s.agent === agent &&
(s.scope ?? "project") === scope` shared by `addSkillRecord`,
`removeSkillRecord` and `getSkillRecord`. -/
def keyMatches (s : InstalledSkillRecord) (name agent : String) (scope : Scope) : Bool :=
  decide (s.name = name) && decide (s.agent = agent) &&
    decide (scopeOrProject s.scope = scope)

/-- The mutation performed by `addSkillRecord` (src/core/manifest.ts, lines
270-284) on the loaded document: drop every record with the same
`(name, agent, scope ?? "project")` key, then push the new record. -/
def addSkillRecordPure (m : Manifest) (record : InstalledSkillRecord) : Manifest :=
  let kept := m.skills.filter
    (fun s => !(keyMatches s record.name record.agent (scopeOrProject record.scope)))
  { m with skills := kept ++ [record] }

/-- The mutation performed by `removeSkillRecord` (src/core/manifest.ts, lines
286-298) on the loaded document: drop every record with the given key.
The TypeScript default argument `scope = "project"` is passed explicitly. -/
def removeSkillRecordPure (m : Manifest) (name agent : String) (scope : Scope) : Manifest :=
  { m with skills := m.skills.filter (fun s => !(keyMatches s name agent scope)) }

/-- Model of `getSkillRecord` (src/core/manifest.ts, lines 300-312). -/
def getSkillRecord (m : Manifest) (name agent : String) (scope : Option Scope) :
    Option InstalledSkillRecord :=
  match scope with
  | some sc => m.skills.find? (fun s => keyMatches s name agent sc)
  | none => m.skills.find? (fun s => decide (s.name = name) && decide (s.agent = agent))

/-- The `(name, target, scope)` identity of a record, with an absent scope
read as `"project"` exactly as the code's key predicate does. -/
abbrev RecKey := String × String × Scope

/-- Key of a record. -/
def recKey (s : InstalledSkillRecord) : RecKey := (s.name, s.agent, scopeOrProject s.scope)

/-- All records of the document carrying a given key. -/
def recordsAt (m : Manifest) (k : RecKey) : List InstalledSkillRecord :=
  m.skills.filter (fun s => decide (recKey s = k))

/-- The data-model invariant: at most one record per `(name, agent, scope)` key. -/
def uniqueKeys (m : Manifest) : Prop := (m.skills.map recKey).Nodup

instance (m : Manifest) : Decidable (uniqueKeys m) := by
  unfold uniqueKeys; infer_instance

/-- One mutating call on the state store: `addSkillRecord` or `removeSkillRecord`. -/
inductive ManifestOp where
  | upsert (r : InstalledSkillRecord)
  | remove (name agent : String) (scope : Scope)
deriving DecidableEq

/-- The key an operation acts on. -/
def opKey : ManifestOp → RecKey
  | .upsert r => recKey r
  | .remove name agent scope => (name, agent, scope)

/-- Effect of one operation on the loaded document. -/
def applyOp (m : Manifest) : ManifestOp → Manifest
  | .upsert r => addSkillRecordPure m r
  | .remove name agent scope => removeSkillRecordPure m name agent scope

/-- Effect of a serialized sequence of operations (the lock primitive
serializes all mutating calls, so any interleaving is some sequence). -/
def applyOps (m : Manifest) (ops : List ManifestOp) : Manifest := ops.foldl applyOp m

/-- The last operation of the sequence whose key is `k`, if any. -/
def lastOpOn (ops : List ManifestOp) (k : RecKey) : Option ManifestOp :=
  (ops.filter (fun op => decide (opKey op = k))).getLast?

/-! ## Document-level persistence model

`loadManifest` (src/core/manifest.ts, lines 213-239) distinguishes three
observable shapes of the durable file: missing (`existsSync` false),
unreadable / unparseable / structurally invalid (read throws, `JSON.parse`
throws, or `version` is not a number / `skills` not an array — all of which
return the empty current-schema document without writing), and a successfully
validated document. -/

/-- Observable state of the durable manifest file. -/
inductive StoredFile where
  | absent
  | invalid
  | doc (m : Manifest)
deriving DecidableEq

/-- The empty current-schema document `{ version: MANIFEST_VERSION, skills: [] }`. -/
def emptyManifest : Manifest := { version := MANIFEST_VERSION, skills := [] }

/-- Model of `migrateManifest` (src/core/manifest.ts, lines 247-256): copies the
document and sets `version` to `MANIFEST_VERSION` (no version-specific
migrations exist yet). -/
def migrateManifest (m : Manifest) : Manifest := { m with version := MANIFEST_VERSION }

/-- Model of `loadManifest` (src/core/manifest.ts, lines 213-239), returning both the
document handed to the caller and the durable state after the call (the
migration path persists the migrated document via `saveManifest` before
returning it; no other path writes). -/
def loadManifest : StoredFile → Manifest × StoredFile
  | .absent => (emptyManifest, .absent)
  | .invalid => (emptyManifest, .invalid)
  | .doc m =>
    if m.version < MANIFEST_VERSION then (migrateManifest m, .doc (migrateManifest m))
    else (m, .doc m)

/-- The error message thrown by `withLock` (src/core/manifest.ts, line 204)
when `acquireLock` returns false. -/
def lockErrMsg : String :=
  "Could not acquire manifest lock - another operation may be in progress"

/-- Model of `addSkillRecord` (src/core/manifest.ts, lines 270-284): `withLock`
around load → replace-by-key → save. `acquired` is the result of
`acquireLock()`; when it is false the operation throws before touching the
durable file. Returns the thrown/ok outcome and the durable state after. -/
def addSkillRecord (acquired : Bool) (store : StoredFile) (record : InstalledSkillRecord) :
    Except String Unit × StoredFile :=
  if acquired then
    (.ok (), .doc (addSkillRecordPure (loadManifest store).1 record))
  else (.error lockErrMsg, store)

/-- Model of `removeSkillRecord` (src/core/manifest.ts, lines 286-298): `withLock`
around load → filter-by-key → save. -/
def removeSkillRecord (acquired : Bool) (store : StoredFile) (name agent : String)
    (scope : Scope) : Except String Unit × StoredFile :=
  if acquired then
    (.ok (), .doc (removeSkillRecordPure (loadManifest store).1 name agent scope))
  else (.error lockErrMsg, store)

/-! ## Byte-level persistence model

`saveManifest` (src/core/manifest.ts, lines 258-268) writes the serialized
document (`JSON.stringify(manifest, null, 2)`, abstracted below as an
arbitrary `content` string since no claim depends on the encoding) to the
sibling path `path + ".tmp"` with `writeFileSync` and then `renameSync`s it
over the durable path. The filesystem is a map from path to file bytes; both
`writeFileSync` and `renameSync` are single atomic steps. -/

/-- Filesystem contents: each path holds a whole byte string or nothing. -/
def FS := String → Option String

/-- Step `writeFileSync p c`: the whole content appears at `p` in one step. -/
def fsWrite (fs : FS) (p c : String) : FS :=
  fun q => if q = p then some c else fs q

/-- Step `renameSync src dst`: atomic move of the file at `src` over `dst`. -/
def fsRename (fs : FS) (src dst : String) : FS :=
  fun q => if q = src then none else if q = dst then fs src else fs q

/-- The temp path `path + ".tmp"` used by `saveManifest`. -/
def tmpPath (path : String) : String := path ++ ".tmp"

/-- Filesystem after step 1 of `saveManifest`: the serialized document has
been written to the sibling temp path only. -/
def saveManifestTemp (fs : FS) (path content : String) : FS :=
  fsWrite fs (tmpPath path) content

/-- Filesystem after step 2 of `saveManifest`: the temp file has been
renamed over the durable path. -/
def saveManifestFS (fs : FS) (path content : String) : FS :=
  fsRename (saveManifestTemp fs path content) (tmpPath path) path

/-! ## Lock primitive

Model of `parseLockInfo`, `isLockStale`, `isProcessRunning` and the
`acquireLock` retry loop (src/core/manifest.ts, lines 35-192).

The lock file content is a raw string. `JSON.parse` is modelled on the
fragment of JSON relevant to lock files: the canonical object layout that
`acquireLock` itself writes via `JSON.stringify({pid, timestamp})`, and bare
JSON number literals (the shape a legacy PID-only file has). Any other
content is treated as a parse failure, which sends `parseLockInfo` to its
legacy `parseInt` fallback exactly as a thrown `JSON.parse` does. -/

/-- Parsed lock file content, `LockInfo` in src/core/manifest.ts. -/
structure LockInfo where
  pid : Int
  timestamp : Int
deriving DecidableEq

/-- Constant `LOCK_TIMEOUT_MS` (src/core/manifest.ts, line 35). -/
def LOCK_TIMEOUT_MS : Int := 5000

/-- Constant `LOCK_RETRY_MS` (src/core/manifest.ts, line 36). -/
def LOCK_RETRY_MS : Int := 50

/-- Constant `LOCK_STALE_MS` (src/core/manifest.ts, line 37). -/
def LOCK_STALE_MS : Int := 30000

/-- ASCII decimal digit. -/
def isDigitCh (c : Char) : Bool := decide ('0' ≤ c) && decide (c ≤ '9')

/-- JSON insignificant whitespace: space, tab, line feed, carriage return. -/
def isJsonWs (c : Char) : Bool :=
  decide (c = ' ') || decide (c = Char.ofNat 9) || decide (c = Char.ofNat 10) ||
    decide (c = Char.ofNat 13)

/-- Strip JSON whitespace from both ends. -/
def trimWsChars (cs : List Char) : List Char :=
  ((cs.dropWhile isJsonWs).reverse.dropWhile isJsonWs).reverse

/-- Longest digit run at the front, and the rest. -/
def takeDigits : List Char → List Char × List Char
  | [] => ([], [])
  | c :: cs =>
    if isDigitCh c then
      let r := takeDigits cs
      (c :: r.1, r.2)
    else ([], c :: cs)

/-- Value of a digit run. -/
def digitsVal (ds : List Char) : Nat :=
  ds.foldl (fun acc c => 10 * acc + (c.toNat - 48)) 0

/-- JSON unsigned integer literal: `0`, or a nonzero digit followed by digits. -/
def parseJsonIntNonneg : List Char → Option (Nat × List Char)
  | [] => none
  | c :: rest =>
    if c = '0' then some (0, rest)
    else if isDigitCh c then
      let r := takeDigits rest
      some (digitsVal (c :: r.1), r.2)
    else none

/-- JSON integer literal with optional leading minus. -/
def parseJsonInt (cs : List Char) : Option (Int × List Char) :=
  match cs with
  | c :: rest =>
    if c = '-' then (parseJsonIntNonneg rest).map (fun p => (-(p.1 : Int), p.2))
    else (parseJsonIntNonneg cs).map (fun p => ((p.1 : Int), p.2))
  | [] => none

/-- Optional JSON fraction part `.digits`. -/
def chompFrac (cs : List Char) : Option (List Char) :=
  match cs with
  | c :: rest =>
    if c = '.' then
      let r := takeDigits rest
      if r.1.isEmpty then none else some r.2
    else some cs
  | [] => some []

/-- Optional JSON exponent part `e[+-]digits`. -/
def chompExp (cs : List Char) : Option (List Char) :=
  match cs with
  | c :: rest =>
    if c = 'e' || c = 'E' then
      let rest2 := match rest with
        | d :: rest' => if d = '+' || d = '-' then rest' else rest
        | [] => []
      let r := takeDigits rest2
      if r.1.isEmpty then none else some r.2
    else some cs
  | [] => some []

/-- Recognizer for a complete JSON number literal. -/
def isJsonNumber (cs : List Char) : Bool :=
  match parseJsonInt cs with
  | none => false
  | some (_, rest) =>
    match chompFrac rest with
    | none => false
    | some rest2 =>
      match chompExp rest2 with
      | none => false
      | some rest3 => rest3.isEmpty

/-- Match a literal character sequence at the front. -/
def stripLit : List Char → List Char → Option (List Char)
  | [], cs => some cs
  | _ :: _, [] => none
  | p :: ps, c :: cs => if p = c then stripLit ps cs else none

/-- Opening brace character. -/
def lbrace : Char := Char.ofNat 123

/-- Closing brace character. -/
def rbrace : Char := Char.ofNat 125

/-- Characters of the literal `"pid":` (after the opening brace). -/
def pidLit : List Char := ("\"pid\":").data

/-- Characters of the literal `,"timestamp":`. -/
def tsLit : List Char := (",\"timestamp\":").data

/-- Parse the canonical `JSON.stringify({pid, timestamp})` object layout. -/
def parseLockObj (cs : List Char) : Option (Int × Int) :=
  match cs with
  | [] => none
  | c :: rest =>
    if c = lbrace then
      match stripLit pidLit rest with
      | none => none
      | some r1 =>
        match parseJsonInt r1 with
        | none => none
        | some (p, r2) =>
          match stripLit tsLit r2 with
          | none => none
          | some r3 =>
            match parseJsonInt r3 with
            | none => none
            | some (t, r4) =>
              match r4 with
              | [d] => if d = rbrace then some (p, t) else none
              | _ => none
    else none

/-- Result shape of the modelled `JSON.parse` on lock file content. -/
inductive JsonValue where
  | num
  | lockObj (pid timestamp : Int)
deriving DecidableEq

/-- Model of `JSON.parse` on lock file content: succeeds with the lock object for the
canonical layout this module writes, succeeds with a number for a bare JSON
number literal, and throws (`none`) otherwise. -/
def jsonParseLock (content : String) : Option JsonValue :=
  let cs := trimWsChars content.data
  match parseLockObj cs with
  | some (p, t) => some (.lockObj p t)
  | none => if isJsonNumber cs then some .num else none

/-- Model of `parseInt(content, 10)` restricted to its use here: skip leading
whitespace, optional sign, then a nonempty digit run (ignoring any trailing
junk); `none` is `NaN`. -/
def parseIntDec (content : String) : Option Int :=
  let cs := content.data.dropWhile isJsonWs
  let digitsOf : List Char → Option Nat := fun ds =>
    let r := takeDigits ds
    if r.1.isEmpty then none else some (digitsVal r.1)
  match cs with
  | [] => none
  | c :: rest =>
    if c = '-' then (digitsOf rest).map (fun n => -(n : Int))
    else if c = '+' then (digitsOf rest).map (fun n => (n : Int))
    else (digitsOf cs).map (fun n => (n : Int))

/-- Model of `parseLockInfo` (src/core/manifest.ts, lines 52-71). `JSON.parse`
succeeding with a non-object (a bare number) fails the shape check and falls
through to the final `return null`; only a thrown parse reaches the legacy
`parseInt` branch. -/
def parseLockInfo (content : String) : Option LockInfo :=
  match jsonParseLock content with
  | some (.lockObj p t) => some ⟨p, t⟩
  | some .num => none
  | none =>
    match parseIntDec content with
    | some pid => if pid > 0 then some ⟨pid, 0⟩ else none
    | none => none

/-- Output of `JSON.stringify` of a `LockInfo`, as written by `acquireLock`. -/
def stringifyLockInfo (li : LockInfo) : String :=
  "\x7b\"pid\":" ++ toString li.pid ++ ",\"timestamp\":" ++ toString li.timestamp ++ "\x7d"

/-- Model of `isLockStale` (src/core/manifest.ts, lines 73-80). -/
def isLockStale (now : Int) (li : LockInfo) : Bool :=
  if li.timestamp = 0 then true
  else decide (now - li.timestamp > LOCK_STALE_MS)

/-- Ambient facts about the process environment: our PID, the platform, and
the liveness oracle probed through `process.kill(pid, 0)`. -/
structure LockEnv where
  pid : Int
  win32 : Bool
  alive : Int → Bool

/-- Model of `isProcessRunning` (src/core/manifest.ts, lines 82-100). On win32 the
probe degenerates to a PID range check; on POSIX it asks the liveness
oracle. -/
def isProcessRunning (env : LockEnv) (pid : Int) : Bool :=
  if pid ≤ 0 then false
  else if env.win32 then decide (0 < pid) && decide (pid < 4194304)
  else env.alive pid

/-- The `acquireLock` retry loop (src/core/manifest.ts, lines 118-192) in a
quiescent environment (no concurrent lock writers, so the exclusive create
after a stale unlink succeeds). `now` is `Date.now()`; time within one
iteration is constant and `sleepSync(LOCK_RETRY_MS)` advances it by
`LOCK_RETRY_MS`. `fuel` bounds the number of iterations modelled; `none`
means the bound was hit, `some (b, lock)` is the source function returning
`b` with `lock` the lock file left behind. -/
def acquireLock (env : LockEnv) (start : Int) (fuel : Nat) (now : Int)
    (lock : Option String) : Option (Bool × Option String) :=
  if now - start < LOCK_TIMEOUT_MS then
    match fuel with
    | 0 => none
    | fuel' + 1 =>
      match lock with
      | none => some (true, some (stringifyLockInfo ⟨env.pid, now⟩))
      | some content =>
        match parseLockInfo content with
        | some li =>
          if li.pid = env.pid then some (true, some content)
          else if !isProcessRunning env li.pid || isLockStale now li then
            some (true, some (stringifyLockInfo ⟨env.pid, now⟩))
          else acquireLock env start fuel' (now + LOCK_RETRY_MS) (some content)
        | none => acquireLock env start fuel' now none
  else some (false, lock)

/-! ## Repository cache

Model of `getCachePath` and `loadRepoCache` (src/core/registry.ts, lines
25-36 and 83-101) over a per-path cache file state. -/

/-- Structure `RepoSkill` (src/core/registry.ts): `SkillInfo` plus repository fields. -/
structure RepoSkill where
  name : String
  description : String
  path : String
  relativePath : String
  license : Option String
  compatibility : Option String
  metadata : Option (List (String × String))
  repo : String
  repoOwner : String
  repoName : String
  skillPath : String
deriving DecidableEq

/-- Structure `RepoCache` (src/core/registry.ts, lines 20-23). -/
structure RepoCache where
  lastUpdated : String
  skills : List RepoSkill
deriving DecidableEq

/-- Observable state of one cache file as `loadRepoCache` distinguishes it:
missing, unreadable or unparseable, parsed but `skills` missing or not an
array, or a validated cache document. -/
inductive CacheFile where
  | absent
  | corrupt
  | invalidShape
  | valid (cache : RepoCache)
deriving DecidableEq

/-- A character allowed by the config repo name pattern `[a-zA-Z0-9_-]`. -/
def isNameCh (c : Char) : Bool :=
  (decide ('a' ≤ c) && decide (c ≤ 'z')) || (decide ('A' ≤ c) && decide (c ≤ 'Z')) ||
    isDigitCh c || decide (c = '_') || decide (c = '-')

/-- Model of `isValidConfigRepoName` (src/utils/fs.ts): the regex
`^[a-zA-Z0-9_-]+$` plus the length bounds `0 < length ≤ 100`. -/
def isValidConfigRepoName (name : String) : Bool :=
  name.data.all isNameCh && decide (0 < name.data.length) &&
    decide (name.data.length ≤ 100)

/-- First list is an initial segment of the second. -/
def startsWithList : List Char → List Char → Bool
  | [], _ => true
  | _ :: _, [] => false
  | p :: ps, c :: cs => decide (p = c) && startsWithList ps cs

/-- Model of `isPathWithin` (src/utils/fs.ts): target equals base or extends it past a
separator. `path.resolve` is modelled as the identity, which it is on the
already-rooted, traversal-free paths built by `getCachePath`. -/
def isPathWithin (basePath targetPath : String) : Bool :=
  decide (targetPath = basePath) || startsWithList (basePath ++ "/").data targetPath.data

/-- Fixed home directory of the model. -/
def homeDir : String := "/home/user"

/-- Model of `getConfigDir` (src/core/config.ts): `join(homedir(), ".openskill")`. -/
def getConfigDir : String := homeDir ++ "/.openskill"

/-- Model of `getReposCacheDir` (src/core/config.ts): `join(getConfigDir(), "repos")`. -/
def getReposCacheDir : String := getConfigDir ++ "/repos"

/-- Model of `getCachePath` (src/core/registry.ts, lines 25-36): throws on an invalid
repo name or a path that escapes the cache directory. -/
def getCachePath (repoName : String) : Except String String :=
  if !isValidConfigRepoName repoName then
    .error ("Invalid repository name: " ++ repoName)
  else
    let cachePath := getReposCacheDir ++ "/" ++ repoName ++ ".json"
    if !isPathWithin getReposCacheDir cachePath then
      .error ("Invalid cache path for repository: " ++ repoName)
    else .ok cachePath

/-- Model of `loadRepoCache` (src/core/registry.ts, lines 83-101): an exception from
`getCachePath` escapes (there is no try around it); absent, unreadable and
shape-invalid cache files all yield `[]`. -/
def loadRepoCache (fs : String → CacheFile) (name : String) :
    Except String (List RepoSkill) :=
  match getCachePath name with
  | .error e => .error e
  | .ok cachePath =>
    match fs cachePath with
    | .absent => .ok []
    | .corrupt => .ok []
    | .invalidShape => .ok []
    | .valid cache => .ok cache.skills

/-! ## Install orchestration

Model of the per-pair install loop and its rollback handler inside
`installFromGitHub` (src/cli/install.ts, lines 284-359). Only the effects
the claims are about are tracked: the durable manifest (every successful
pair calls `addSkillRecord`), the set of `(skill, agent)` pairs whose
content-level `agent.uninstallSkill` the rollback invokes, and whether the
original error is re-thrown. Skills and agents are identified by name;
`agent.installSkill` either succeeds or throws as `installThrows` says. -/

/-- Collaborator behavior visible to the orchestration loop. -/
structure InstallEnv where
  skillLoads : String → Bool
  agentExists : String → Bool
  validateOk : String → String → Bool
  installThrows : String → String → Bool

/-- Outcome of one `installFromGitHub` request. -/
structure InstallRun where
  manifest : Manifest
  uninstalled : List (String × String)
  raised : Bool
deriving DecidableEq

/-- The inner `for (const agentName of selectedAgents)` loop for one skill:
skip a missing agent, warn-and-skip an incompatible pair, abort on a thrown
install, otherwise record the pair (for rollback tracking) and upsert its
manifest record. Returns the manifest, tracked pairs and whether it threw. -/
def runAgentLoop (env : InstallEnv) (mk : String → String → InstalledSkillRecord)
    (skillName : String) :
    List String → Manifest → List (String × String) →
      Manifest × List (String × String) × Bool
  | [], m, inst => (m, inst, false)
  | agentName :: rest, m, inst =>
    if !env.agentExists agentName then runAgentLoop env mk skillName rest m inst
    else if !env.validateOk skillName agentName then runAgentLoop env mk skillName rest m inst
    else if env.installThrows skillName agentName then (m, inst, true)
    else
      runAgentLoop env mk skillName rest
        (addSkillRecordPure m (mk skillName agentName)) (inst ++ [(skillName, agentName)])

/-- The outer `for (const skillInfo of selectedSkills)` loop: a skill whose
`loadSkillFromDir` fails is skipped whole; a throw aborts the batch. -/
def runSkillLoop (env : InstallEnv) (mk : String → String → InstalledSkillRecord)
    (agents : List String) :
    List String → Manifest → List (String × String) →
      Manifest × List (String × String) × Bool
  | [], m, inst => (m, inst, false)
  | s :: rest, m, inst =>
    if !env.skillLoads s then runSkillLoop env mk agents rest m inst
    else
      let r := runAgentLoop env mk s agents m inst
      if r.2.2 then r else runSkillLoop env mk agents rest r.1 r.2.1

/-- Model of `installFromGitHub`'s try/catch (src/cli/install.ts, lines 288-359): on a
throw, the catch block invokes `agent.uninstallSkill` for every tracked pair
whose agent resolves (failures logged and ignored) and re-throws. The
manifest is exactly what the loop left behind — the rollback never calls
`removeSkillRecord`. -/
def installFromGitHub (env : InstallEnv) (mk : String → String → InstalledSkillRecord)
    (skills agents : List String) (m₀ : Manifest) : InstallRun :=
  let r := runSkillLoop env mk agents skills m₀ []
  if r.2.2 then
    { manifest := r.1, uninstalled := r.2.1.filter (fun p => env.agentExists p.2),
      raised := true }
  else { manifest := r.1, uninstalled := [], raised := false }

/-! ## Concrete fixtures used by witnesses and counterexamples -/

/-- A concrete record with the given key fields. -/
def sampleRecord (name agent : String) (scope : Option Scope) : InstalledSkillRecord :=
  { name := name, agent := agent, repoOwner := "anthropics", repoName := "skills",
    repoPath := none, commitHash := "abc123", installedAt := "2026-01-01T00:00:00.000Z",
    scope := scope }

/-- Environment for the rollback scenario: every agent exists, every pair is
compatible, every skill loads, and only the pair `(pdf, cursor)` throws. -/
def rollbackEnv : InstallEnv :=
  { skillLoads := fun _ => true, agentExists := fun _ => true,
    validateOk := fun _ _ => true,
    installThrows := fun s a => decide (s = "pdf") && decide (a = "cursor") }

/-- Decidable equality of operation outcomes. -/
instance {ε α : Type} [DecidableEq ε] [DecidableEq α] : DecidableEq (Except ε α)
  | .ok x, .ok y =>
    if h : x = y then isTrue (by rw [h]) else isFalse (fun hh => h (by cases hh; rfl))
  | .error x, .error y =>
    if h : x = y then isTrue (by rw [h]) else isFalse (fun hh => h (by cases hh; rfl))
  | .ok _, .error _ => isFalse (fun h => by cases h)
  | .error _, .ok _ => isFalse (fun h => by cases h)

/-- A bare positive decimal integer in canonical form: a nonzero leading
digit followed by digits (a valid JSON number literal, e.g. `"42"`). -/
def isBareDecInt (content : String) : Bool :=
  match content.data with
  | [] => false
  | c :: cs => decide (Char.ofNat 49 <= c) && decide (c <= Char.ofNat 57) && cs.all isDigitCh

/-- The bundle list a cache file yields once `loadRepoCache` gets past
`getCachePath`. -/
def cacheSkillsOf : CacheFile -> List RepoSkill
  | .valid cache => cache.skills
  | _ => []

/-! ## Theorems -/

/-- The durable path differs from its sibling temp path. -/
theorem tmpPath_ne (path : String) : path ≠ tmpPath path := by
  intro h
  have hlen := congrArg String.length h
  rw [tmpPath, String.length_append] at hlen
  have h4 : (".tmp" : String).length = 4 := rfl
  omega

/-- C3: `saveManifest` writes the full serialized document (`content`) to the
sibling temp path and then atomically renames it over the durable file: the
state after the temp write alone (a crash or failure before the rename) holds
the durable file byte-identical to its previous content, and the state after
the rename holds the full new content — no state exposes a partially-written
durable file. -/
theorem saveManifest_atomic (fs : FS) (path content : String) :
    saveManifestTemp fs path content path = fs path ∧
    saveManifestFS fs path content path = some content := by
  constructor
  · show fsWrite fs (tmpPath path) content path = fs path
    unfold fsWrite
    rw [if_neg (tmpPath_ne path)]
  · show fsRename (fsWrite fs (tmpPath path) content) (tmpPath path) path path = some content
    unfold fsRename fsWrite
    rw [if_neg (tmpPath_ne path), if_pos rfl, if_pos rfl]

/-- C6: loading a stored document whose version is behind `MANIFEST_VERSION`
returns the forward-migrated document, persists it before returning, the
migrated document is at the current version, migration is idempotent, and
loading the persisted migrated document again is a fixed point (same document,
no further write). -/
theorem loadManifest_migrates (m : Manifest) (h : m.version < MANIFEST_VERSION) :
    loadManifest (.doc m) = (migrateManifest m, .doc (migrateManifest m)) ∧
    (migrateManifest m).version = MANIFEST_VERSION ∧
    migrateManifest (migrateManifest m) = migrateManifest m ∧
    loadManifest (.doc (migrateManifest m)) = (migrateManifest m, .doc (migrateManifest m)) := by
  refine ⟨?_, rfl, rfl, ?_⟩
  · rw [loadManifest, if_pos h]
  · rw [loadManifest, if_neg]
    show ¬ (migrateManifest m).version < MANIFEST_VERSION
    simp [migrateManifest]

/-- Closed instance of `loadManifest_migrates` at a version-0 document. -/
theorem loadManifest_migrates_witness :
    (Manifest.mk 0 []).version < MANIFEST_VERSION ∧
    (loadManifest (.doc (Manifest.mk 0 [])) =
        (migrateManifest (Manifest.mk 0 []), .doc (migrateManifest (Manifest.mk 0 []))) ∧
      (migrateManifest (Manifest.mk 0 [])).version = MANIFEST_VERSION ∧
      migrateManifest (migrateManifest (Manifest.mk 0 [])) = migrateManifest (Manifest.mk 0 []) ∧
      loadManifest (.doc (migrateManifest (Manifest.mk 0 []))) =
        (migrateManifest (Manifest.mk 0 []), .doc (migrateManifest (Manifest.mk 0 [])))) :=
  ⟨by decide, loadManifest_migrates (Manifest.mk 0 []) (by decide)⟩

/-- C1: at the failing input — one skill `pdf`, two agents in order
`[claude, cursor]`, where the second pair's install step throws — the
orchestrator re-raises the error and invokes the content-level uninstall for
the completed pair `(pdf, claude)`, but the manifest still contains the
`InstalledRecord` created for that pair: the rollback never removes manifest
records, contradicting the claim that zero records from the request remain. -/
theorem install_rollback_leaves_manifest_record :
    installFromGitHub rollbackEnv (fun s a => sampleRecord s a (some Scope.project))
        ["pdf"] ["claude", "cursor"] emptyManifest =
      { manifest := { version := MANIFEST_VERSION,
                      skills := [sampleRecord "pdf" "claude" (some Scope.project)] },
        uninstalled := [("pdf", "claude")], raised := true } := by decide

/-- The code's key predicate is equality of `recKey` with the given triple. -/
theorem keyMatches_eq_decide (s : InstalledSkillRecord) (n a : String) (sc : Scope) :
    keyMatches s n a sc = decide (recKey s = (n, a, sc)) := by
  by_cases h1 : s.name = n <;> by_cases h2 : s.agent = a <;>
    by_cases h3 : scopeOrProject s.scope = sc <;>
    simp [keyMatches, recKey, h1, h2, h3]

/-- Filtering a key out and then for it yields nothing. -/
theorem filter_key_of_filter_not_key (l : List InstalledSkillRecord) (k : RecKey) :
    (l.filter (fun s => !(decide (recKey s = k)))).filter (fun s => decide (recKey s = k))
      = [] := by
  induction l with
  | nil => rfl
  | cons s t ih => by_cases h : recKey s = k <;> simp [h, ih]

/-- Filtering out one key leaves the rows of any other key untouched. -/
theorem filter_key_of_filter_not_other (l : List InstalledSkillRecord) (k k' : RecKey)
    (h : k ≠ k') :
    (l.filter (fun s => !(decide (recKey s = k')))).filter (fun s => decide (recKey s = k))
      = l.filter (fun s => decide (recKey s = k)) := by
  induction l with
  | nil => rfl
  | cons s t ih =>
    by_cases h1 : recKey s = k'
    · have h2 : ¬ recKey s = k := fun hh => h (hh ▸ h1)
      rw [List.filter_cons, if_neg (by simp [h1]), List.filter_cons, if_neg (by simp [h2])]
      exact ih
    · rw [List.filter_cons, if_pos (by simp [h1]), List.filter_cons]
      by_cases h2 : recKey s = k
      · rw [if_pos (by simp [h2]), List.filter_cons, if_pos (by simp [h2]), ih]
      · rw [if_neg (by simp [h2]), List.filter_cons, if_neg (by simp [h2])]
        exact ih

/-- After an upsert, the upserted record is the only row of its key. -/
theorem recordsAt_add_self (m : Manifest) (r : InstalledSkillRecord) :
    recordsAt (addSkillRecordPure m r) (recKey r) = [r] := by
  have hpred : ∀ s ∈ m.skills,
      (!(keyMatches s r.name r.agent (scopeOrProject r.scope)))
        = !(decide (recKey s = recKey r)) := fun s _ => by
    rw [keyMatches_eq_decide]; rfl
  unfold recordsAt addSkillRecordPure
  rw [List.filter_congr hpred, List.filter_append, filter_key_of_filter_not_key]
  simp

/-- An upsert leaves the rows of every other key untouched. -/
theorem recordsAt_add_ne (m : Manifest) (r : InstalledSkillRecord) (k : RecKey)
    (hk : k ≠ recKey r) :
    recordsAt (addSkillRecordPure m r) k = recordsAt m k := by
  have hpred : ∀ s ∈ m.skills,
      (!(keyMatches s r.name r.agent (scopeOrProject r.scope)))
        = !(decide (recKey s = recKey r)) := fun s _ => by
    rw [keyMatches_eq_decide]; rfl
  unfold recordsAt addSkillRecordPure
  rw [List.filter_congr hpred, List.filter_append,
    filter_key_of_filter_not_other m.skills k (recKey r) hk]
  have : decide (recKey r = k) = false := by
    simp only [decide_eq_false_iff_not]
    exact fun hh => hk hh.symm
  simp [this]

/-- After a remove, no row of the removed key remains. -/
theorem recordsAt_remove_self (m : Manifest) (n a : String) (sc : Scope) :
    recordsAt (removeSkillRecordPure m n a sc) (n, a, sc) = [] := by
  have hpred : ∀ s ∈ m.skills,
      (!(keyMatches s n a sc)) = !(decide (recKey s = (n, a, sc))) := fun s _ => by
    rw [keyMatches_eq_decide]
  unfold recordsAt removeSkillRecordPure
  rw [List.filter_congr hpred, filter_key_of_filter_not_key]

/-- A remove leaves the rows of every other key untouched. -/
theorem recordsAt_remove_ne (m : Manifest) (n a : String) (sc : Scope) (k : RecKey)
    (hk : k ≠ (n, a, sc)) :
    recordsAt (removeSkillRecordPure m n a sc) k = recordsAt m k := by
  have hpred : ∀ s ∈ m.skills,
      (!(keyMatches s n a sc)) = !(decide (recKey s = (n, a, sc))) := fun s _ => by
    rw [keyMatches_eq_decide]
  unfold recordsAt removeSkillRecordPure
  rw [List.filter_congr hpred, filter_key_of_filter_not_other m.skills k (n, a, sc) hk]

/-- An operation on one key leaves the rows of every other key untouched. -/
theorem recordsAt_applyOp_ne (m : Manifest) (op : ManifestOp) (k : RecKey)
    (h : opKey op ≠ k) :
    recordsAt (applyOp m op) k = recordsAt m k := by
  cases op with
  | upsert r => exact recordsAt_add_ne m r k (fun hh => h hh.symm)
  | remove n a sc => exact recordsAt_remove_ne m n a sc k (fun hh => h hh.symm)

/-- An upsert preserves key uniqueness. -/
theorem uniqueKeys_add (m : Manifest) (r : InstalledSkillRecord) (h : uniqueKeys m) :
    uniqueKeys (addSkillRecordPure m r) := by
  unfold uniqueKeys addSkillRecordPure at *
  rw [List.map_append]
  apply List.Nodup.append
  · exact h.sublist (List.Sublist.map recKey (List.filter_sublist m.skills))
  · simp
  · intro x hx hxr
    simp only [List.map_cons, List.map_nil, List.mem_singleton] at hxr
    rcases List.mem_map.mp hx with ⟨s, hs, hsx⟩
    rcases List.mem_filter.mp hs with ⟨_, hkeep⟩
    rw [keyMatches_eq_decide] at hkeep
    simp only [Bool.not_eq_true', decide_eq_false_iff_not] at hkeep
    exact hkeep (hsx.trans hxr)

/-- A remove preserves key uniqueness. -/
theorem uniqueKeys_remove (m : Manifest) (n a : String) (sc : Scope) (h : uniqueKeys m) :
    uniqueKeys (removeSkillRecordPure m n a sc) :=
  h.sublist (List.Sublist.map recKey (List.filter_sublist m.skills))

/-- Any serialized sequence of upserts and removes preserves key uniqueness. -/
theorem uniqueKeys_applyOps (m : Manifest) (ops : List ManifestOp) (h : uniqueKeys m) :
    uniqueKeys (applyOps m ops) := by
  induction ops generalizing m with
  | nil => exact h
  | cons op t ih =>
    show uniqueKeys (applyOps (applyOp m op) t)
    apply ih
    cases op with
    | upsert r => exact uniqueKeys_add m r h
    | remove n a sc => exact uniqueKeys_remove m n a sc h

/-- Concrete operation sequence for the C2 witness: an upsert of the key
`(pdf, claude, project)` with an absent scope, replaced by a later upsert of
the same key with an explicit project scope. -/
def wOps2 : List ManifestOp :=
  [ManifestOp.upsert (sampleRecord "pdf" "claude" none),
   ManifestOp.upsert (sampleRecord "pdf" "claude" (some Scope.project))]

/-- Starting manifest for the C2 counterexample: two rows already share the
key `(pdf, claude, project)`. -/
def dupManifest : Manifest :=
  { version := 1,
    skills := [sampleRecord "pdf" "claude" (some Scope.project),
               sampleRecord "pdf" "claude" (some Scope.project)] }

/-- C2 (as amended): starting from a manifest satisfying the one-row-per-key
invariant, any serialized sequence of `addSkillRecord`/`removeSkillRecord`
mutations preserves the invariant, and if the last operation on key `k` is an
upsert of `r` then the rows of key `k` in the final manifest are exactly
`[r]` — the last record upserted with that key. -/
theorem manifest_last_upsert (m : Manifest) (ops : List ManifestOp) (k : RecKey)
    (r : InstalledSkillRecord) (hm : uniqueKeys m)
    (hlast : lastOpOn ops k = some (ManifestOp.upsert r)) :
    uniqueKeys (applyOps m ops) ∧ recordsAt (applyOps m ops) k = [r] := by
  refine ⟨uniqueKeys_applyOps m ops hm, ?_⟩
  clear hm
  induction ops using List.reverseRecOn with
  | nil => simp [lastOpOn] at hlast
  | append_singleton l op ih =>
    have happ : applyOps m (l ++ [op]) = applyOp (applyOps m l) op := by
      unfold applyOps
      rw [List.foldl_append]
      rfl
    rw [lastOpOn, List.filter_append] at hlast
    by_cases hop : opKey op = k
    · have hfil : (List.filter (fun o => decide (opKey o = k)) [op]) = [op] := by
        simp [hop]
      rw [hfil] at hlast
      have hlastop : op = ManifestOp.upsert r := by
        have := List.getLast?_concat (l := List.filter (fun o => decide (opKey o = k)) l)
          (a := op)
        rw [this] at hlast
        exact Option.some.inj hlast
      subst hlastop
      have hk : recKey r = k := hop
      subst hk
      rw [happ]
      exact recordsAt_add_self (applyOps m l) r
    · have hfil : (List.filter (fun o => decide (opKey o = k)) [op]) = [] := by
        simp [hop]
      rw [hfil, List.append_nil] at hlast
      rw [happ, recordsAt_applyOp_ne (applyOps m l) op k hop]
      exact ih hlast

/-- Closed instance of `manifest_last_upsert`: from the empty manifest, two
upserts of the same key leave exactly the second record under that key. -/
theorem manifest_last_upsert_witness :
    uniqueKeys emptyManifest ∧
    lastOpOn wOps2 ("pdf", "claude", Scope.project) =
      some (ManifestOp.upsert (sampleRecord "pdf" "claude" (some Scope.project))) ∧
    (uniqueKeys (applyOps emptyManifest wOps2) ∧
      recordsAt (applyOps emptyManifest wOps2) ("pdf", "claude", Scope.project) =
        [sampleRecord "pdf" "claude" (some Scope.project)]) :=
  ⟨by decide, by decide,
    manifest_last_upsert emptyManifest wOps2 ("pdf", "claude", Scope.project)
      (sampleRecord "pdf" "claude" (some Scope.project)) (by decide) (by decide)⟩

/-- C2 counterexample: the claim quantifies over every starting manifest, but
from a starting manifest that already holds two rows for one key, a sequence
of operations touching only a different key leaves both rows in place — the
resulting manifest does not have at most one record per key. -/
theorem manifest_last_upsert_cex :
    recordsAt
        (applyOps dupManifest
          [ManifestOp.upsert (sampleRecord "other" "claude" (some Scope.project))])
        ("pdf", "claude", Scope.project) =
      [sampleRecord "pdf" "claude" (some Scope.project),
       sampleRecord "pdf" "claude" (some Scope.project)] ∧
    ¬ uniqueKeys
        (applyOps dupManifest
          [ManifestOp.upsert (sampleRecord "other" "claude" (some Scope.project))]) := by
  decide

/-- Manifest used by the C8 witness. -/
def wManifest8 : Manifest := { version := 1, skills := [sampleRecord "pdf" "claude" (some Scope.project)] }

/-- C8 (as amended): removing a key with no matching record leaves the stored
document — its version field and every record — unchanged, provided the
stored document is already at (or above) the current schema version. (For a
below-current document the load step inside `removeSkillRecord` first
migrates and persists the bumped version, see the counterexample.) -/
theorem removeSkillRecord_missing_noop (m : Manifest) (name agent : String) (scope : Scope)
    (h1 : ∀ s ∈ m.skills, keyMatches s name agent scope = false)
    (h2 : MANIFEST_VERSION ≤ m.version) :
    removeSkillRecord true (.doc m) name agent scope = (.ok (), .doc m) := by
  have hload : loadManifest (.doc m) = (m, .doc m) := by
    rw [loadManifest, if_neg (by omega)]
  have hfil : m.skills.filter (fun s => !(keyMatches s name agent scope)) = m.skills := by
    apply List.filter_eq_self.mpr
    intro s hs
    rw [h1 s hs]
    rfl
  rw [removeSkillRecord, if_pos rfl, hload]
  show (Except.ok (), StoredFile.doc (removeSkillRecordPure m name agent scope)) = _
  rw [removeSkillRecordPure, hfil]

/-- Closed instance of `removeSkillRecord_missing_noop` at a current-version
document and a key matching none of its records. -/
theorem removeSkillRecord_missing_noop_witness :
    (∀ s ∈ wManifest8.skills, keyMatches s "missing" "claude" Scope.project = false) ∧
    MANIFEST_VERSION ≤ wManifest8.version ∧
    removeSkillRecord true (.doc wManifest8) "missing" "claude" Scope.project =
      (.ok (), .doc wManifest8) :=
  ⟨by decide, by decide,
    removeSkillRecord_missing_noop wManifest8 "missing" "claude" Scope.project
      (by decide) (by decide)⟩

/-- C8 counterexample: on a stored version-0 document, `removeSkillRecord`
with a key matching no record still changes the document's version field to 1
(the load step migrates and the save persists it), so the call is not a
no-op on the document's contents as the claim states. -/
theorem removeSkillRecord_missing_noop_cex :
    removeSkillRecord true
        (.doc { version := 0, skills := [sampleRecord "pdf" "claude" (some Scope.project)] })
        "missing" "claude" Scope.project =
      (.ok (), .doc { version := 1, skills := [sampleRecord "pdf" "claude" (some Scope.project)] }) ∧
    (1 : Int) ≠ 0 := by decide

/-- Manifest used by the C9 witness. -/
def wManifest9 : Manifest := { version := 1, skills := [sampleRecord "pdf" "claude" none] }

/-- C9: a record with an absent scope carries the key scope "project": it
has the same `recKey` as an explicit project-scope record with its name and
agent; an upsert of such an explicit project-scope record replaces it; a
remove with scope "project" removes it; `getSkillRecord` with scope
"project" supplied finds it; and conversely an upsert with an absent scope
replaces an explicit project-scope record of the same name and agent. -/
theorem absent_scope_is_project (m : Manifest) (s r : InstalledSkillRecord)
    (hs : s.scope = none) (hmem : s ∈ m.skills)
    (hname : r.name = s.name) (hagent : r.agent = s.agent)
    (hr : r.scope = some Scope.project) :
    recKey s = recKey r ∧
    s ∉ (addSkillRecordPure m r).skills ∧
    s ∉ (removeSkillRecordPure m s.name s.agent Scope.project).skills ∧
    (getSkillRecord m s.name s.agent (some Scope.project)).isSome = true ∧
    r ∉ (addSkillRecordPure (addSkillRecordPure m r) { r with scope := none }).skills := by
  have hss : scopeOrProject s.scope = Scope.project := by rw [hs]; rfl
  have hrs : scopeOrProject r.scope = Scope.project := by rw [hr]; rfl
  have hkey : recKey s = recKey r := by
    rw [recKey, recKey, hname, hagent, hss, hrs]
  have hmatch : keyMatches s r.name r.agent (scopeOrProject r.scope) = true := by
    rw [keyMatches_eq_decide, decide_eq_true_iff]
    rw [hkey, recKey, hrs]
  have hsne : s ≠ r := by
    intro hh
    rw [hh, hr] at hs
    cases hs
  refine ⟨hkey, ?_, ?_, ?_, ?_⟩
  · rw [addSkillRecordPure]
    intro hmem2
    rcases List.mem_append.mp hmem2 with hin | hin
    · rcases List.mem_filter.mp hin with ⟨_, hkeep⟩
      rw [hmatch] at hkeep
      cases hkeep
    · exact hsne (List.mem_singleton.mp hin)
  · rw [removeSkillRecordPure]
    intro hmem2
    rcases List.mem_filter.mp hmem2 with ⟨_, hkeep⟩
    have hmatch2 : keyMatches s s.name s.agent Scope.project = true := by
      rw [keyMatches_eq_decide, decide_eq_true_iff, recKey, hss]
    rw [hmatch2] at hkeep
    cases hkeep
  · rw [getSkillRecord]
    rw [List.find?_isSome]
    refine ⟨s, hmem, ?_⟩
    rw [keyMatches_eq_decide, decide_eq_true_iff, recKey, hss]
  · rw [addSkillRecordPure]
    intro hmem2
    rcases List.mem_append.mp hmem2 with hin | hin
    · rcases List.mem_filter.mp hin with ⟨_, hkeep⟩
      have hmatch3 :
          keyMatches r ({ r with scope := none } : InstalledSkillRecord).name
            ({ r with scope := none } : InstalledSkillRecord).agent
            (scopeOrProject ({ r with scope := none } : InstalledSkillRecord).scope) = true := by
        rw [keyMatches_eq_decide, decide_eq_true_iff, recKey, hrs]
        rfl
      rw [hmatch3] at hkeep
      cases hkeep
    · have : r = ({ r with scope := none } : InstalledSkillRecord) :=
        List.mem_singleton.mp hin
      have hcontra := congrArg InstalledSkillRecord.scope this
      rw [hr] at hcontra
      cases hcontra

/-- Closed instance of `absent_scope_is_project`. -/
theorem absent_scope_is_project_witness :
    ((sampleRecord "pdf" "claude" none).scope = none ∧
      sampleRecord "pdf" "claude" none ∈ wManifest9.skills ∧
      (sampleRecord "pdf" "claude" (some Scope.project)).name =
        (sampleRecord "pdf" "claude" none).name ∧
      (sampleRecord "pdf" "claude" (some Scope.project)).agent =
        (sampleRecord "pdf" "claude" none).agent ∧
      (sampleRecord "pdf" "claude" (some Scope.project)).scope = some Scope.project) ∧
    (recKey (sampleRecord "pdf" "claude" none) =
        recKey (sampleRecord "pdf" "claude" (some Scope.project)) ∧
      sampleRecord "pdf" "claude" none ∉
        (addSkillRecordPure wManifest9 (sampleRecord "pdf" "claude" (some Scope.project))).skills ∧
      sampleRecord "pdf" "claude" none ∉
        (removeSkillRecordPure wManifest9 "pdf" "claude" Scope.project).skills ∧
      (getSkillRecord wManifest9 "pdf" "claude" (some Scope.project)).isSome = true ∧
      sampleRecord "pdf" "claude" (some Scope.project) ∉
        (addSkillRecordPure
          (addSkillRecordPure wManifest9 (sampleRecord "pdf" "claude" (some Scope.project)))
          { sampleRecord "pdf" "claude" (some Scope.project) with scope := none }).skills) :=
  ⟨⟨by decide, by decide, by decide, by decide, by decide⟩,
    absent_scope_is_project wManifest9 (sampleRecord "pdf" "claude" none)
      (sampleRecord "pdf" "claude" (some Scope.project))
      (by decide) (by decide) (by decide) (by decide) (by decide)⟩

/-- C4: if the lock marker parses to another holder's `LockInfo` and the
recorded process fails the liveness probe or the marker is stale (its
timestamp is 0 or more than `LOCK_STALE_MS` old), then `acquireLock` removes
the marker and acquires the lock on its very first iteration — well within
the timeout and without the original holder releasing: the lock file ends up
holding this process's own fresh marker. -/
theorem acquireLock_stale_or_dead (env : LockEnv) (now : Int) (content : String)
    (li : LockInfo) (fuel : Nat)
    (hparse : parseLockInfo content = some li)
    (hpid : li.pid ≠ env.pid)
    (hdead : isProcessRunning env li.pid = false ∨ isLockStale now li = true) :
    acquireLock env now (fuel + 1) now (some content) =
      some (true, some (stringifyLockInfo ⟨env.pid, now⟩)) := by
  have hcond : (!isProcessRunning env li.pid || isLockStale now li) = true := by
    rcases hdead with h | h <;> simp [h]
  rw [acquireLock, if_pos (by rw [LOCK_TIMEOUT_MS]; omega : now - now < LOCK_TIMEOUT_MS)]
  simp only [hparse]
  rw [if_neg hpid, if_pos hcond]

/-- Closed instance of `acquireLock_stale_or_dead`: a live but 39.9-seconds
stale marker of PID 42 is removed by PID 7. -/
theorem acquireLock_stale_or_dead_witness :
    parseLockInfo (stringifyLockInfo ⟨42, 100⟩) = some ⟨42, 100⟩ ∧
    (⟨42, 100⟩ : LockInfo).pid ≠ (⟨7, false, fun _ => true⟩ : LockEnv).pid ∧
    (isProcessRunning ⟨7, false, fun _ => true⟩ 42 = false ∨
      isLockStale 40000 ⟨42, 100⟩ = true) ∧
    acquireLock ⟨7, false, fun _ => true⟩ 40000 1 40000
        (some (stringifyLockInfo ⟨42, 100⟩)) =
      some (true, some (stringifyLockInfo ⟨7, 40000⟩)) :=
  ⟨by decide, by decide, by decide,
    acquireLock_stale_or_dead ⟨7, false, fun _ => true⟩ 40000
      (stringifyLockInfo ⟨42, 100⟩) ⟨42, 100⟩ 0 (by decide) (by decide) (by decide)⟩

/-- While the lock is held by a live other process with a fresh marker, every
`acquireLock` iteration backs off; once the elapsed time reaches
`LOCK_TIMEOUT_MS` the loop returns `false` with the marker untouched. -/
theorem acquireLock_contended (env : LockEnv) (start : Int) (content : String)
    (li : LockInfo)
    (hparse : parseLockInfo content = some li)
    (hpid : li.pid ≠ env.pid)
    (halive : isProcessRunning env li.pid = true)
    (hts : li.timestamp ≠ 0)
    (hfresh : start + LOCK_TIMEOUT_MS - li.timestamp ≤ LOCK_STALE_MS) :
    ∀ fuel : Nat, ∀ now : Int, start ≤ now →
      LOCK_TIMEOUT_MS ≤ now - start + LOCK_RETRY_MS * fuel →
      acquireLock env start fuel now (some content) = some (false, some content) := by
  rw [LOCK_TIMEOUT_MS, LOCK_RETRY_MS, LOCK_STALE_MS] at *
  intro fuel
  induction fuel with
  | zero =>
    intro now h1 h2
    rw [acquireLock, if_neg (by rw [LOCK_TIMEOUT_MS]; omega)]
  | succ f ih =>
    intro now h1 h2
    by_cases hg : now - start < (5000 : Int)
    · have hstale : isLockStale now li = false := by
        rw [isLockStale, if_neg hts]
        rw [LOCK_STALE_MS]
        simp only [decide_eq_false_iff_not]
        omega
      have hcond : (!isProcessRunning env li.pid || isLockStale now li) = false := by
        rw [halive, hstale]
        rfl
      rw [acquireLock, if_pos (by rw [LOCK_TIMEOUT_MS]; omega)]
      simp only [hparse]
      rw [if_neg hpid, if_neg (by rw [hcond]; exact Bool.false_ne_true)]
      have := ih (now + LOCK_RETRY_MS) (by rw [LOCK_RETRY_MS]; omega)
        (by rw [LOCK_RETRY_MS] at *; omega)
      exact this
    · rw [acquireLock, if_neg (by rw [LOCK_TIMEOUT_MS]; omega)]

/-- C5: under contention (the marker belongs to a live other process and
stays fresh for the whole window) `acquireLock` returns `false` once the
5000 ms timeout elapses, leaving the marker in place; and a mutating
operation whose acquisition failed throws the concurrency error without
performing any load, mutation or save — the durable manifest state is
returned unchanged for both `addSkillRecord` and `removeSkillRecord`. -/
theorem lock_timeout_aborts (env : LockEnv) (start : Int) (content : String)
    (li : LockInfo) (store : StoredFile) (r : InstalledSkillRecord)
    (name agent : String) (scope : Scope) (fuel : Nat)
    (hparse : parseLockInfo content = some li)
    (hpid : li.pid ≠ env.pid)
    (halive : isProcessRunning env li.pid = true)
    (hts : li.timestamp ≠ 0)
    (hfresh : start + LOCK_TIMEOUT_MS - li.timestamp ≤ LOCK_STALE_MS)
    (hfuel : LOCK_TIMEOUT_MS ≤ LOCK_RETRY_MS * fuel) :
    acquireLock env start fuel start (some content) = some (false, some content) ∧
    addSkillRecord false store r = (.error lockErrMsg, store) ∧
    removeSkillRecord false store name agent scope = (.error lockErrMsg, store) := by
  refine ⟨?_, rfl, rfl⟩
  exact acquireLock_contended env start content li hparse hpid halive hts hfresh fuel start
    le_rfl (by omega)

/-- Closed instance of `lock_timeout_aborts`: PID 2 holds a fresh marker and
stays alive; PID 1 times out after 100 sleeps and its `addSkillRecord` and
`removeSkillRecord` calls fail without touching the stored document. -/
theorem lock_timeout_aborts_witness :
    parseLockInfo (stringifyLockInfo ⟨2, 1000⟩) = some ⟨2, 1000⟩ ∧
    (⟨2, 1000⟩ : LockInfo).pid ≠ (⟨1, false, fun _ => true⟩ : LockEnv).pid ∧
    isProcessRunning ⟨1, false, fun _ => true⟩ 2 = true ∧
    (⟨2, 1000⟩ : LockInfo).timestamp ≠ 0 ∧
    (1000 : Int) + LOCK_TIMEOUT_MS - 1000 ≤ LOCK_STALE_MS ∧
    LOCK_TIMEOUT_MS ≤ LOCK_RETRY_MS * 100 ∧
    (acquireLock ⟨1, false, fun _ => true⟩ 1000 100 1000
        (some (stringifyLockInfo ⟨2, 1000⟩)) =
        some (false, some (stringifyLockInfo ⟨2, 1000⟩)) ∧
      addSkillRecord false (.doc emptyManifest) (sampleRecord "pdf" "claude" none) =
        (.error lockErrMsg, .doc emptyManifest) ∧
      removeSkillRecord false (.doc emptyManifest) "pdf" "claude" Scope.project =
        (.error lockErrMsg, .doc emptyManifest)) :=
  ⟨by decide, by decide, by decide, by decide, by decide, by decide,
    lock_timeout_aborts ⟨1, false, fun _ => true⟩ 1000 (stringifyLockInfo ⟨2, 1000⟩)
      ⟨2, 1000⟩ (.doc emptyManifest) (sampleRecord "pdf" "claude" none)
      "pdf" "claude" Scope.project 100
      (by decide) (by decide) (by decide) (by decide) (by decide) (by decide)⟩

/-- A decimal digit is not JSON whitespace. -/
theorem not_ws_of_digit (c : Char) (h : isDigitCh c = true) : isJsonWs c = false := by
  have h1 : ¬ c = ' ' := fun e => by rw [e] at h; exact absurd h (by decide)
  have h2 : ¬ c = Char.ofNat 9 := fun e => by rw [e] at h; exact absurd h (by decide)
  have h3 : ¬ c = Char.ofNat 10 := fun e => by rw [e] at h; exact absurd h (by decide)
  have h4 : ¬ c = Char.ofNat 13 := fun e => by rw [e] at h; exact absurd h (by decide)
  simp [isJsonWs, h1, h2, h3, h4]

/-- Function `dropWhile` is the identity when no element satisfies the predicate. -/
theorem dropWhile_eq_self_of_none (p : Char → Bool) (l : List Char)
    (h : ∀ c ∈ l, p c = false) : l.dropWhile p = l := by
  cases l with
  | nil => rfl
  | cons c t =>
    rw [List.dropWhile_cons,
      if_neg (by rw [h c (List.mem_cons_self c t)]; exact Bool.false_ne_true)]

/-- Trimming JSON whitespace does not change an all-digit string. -/
theorem trimWs_digits (cs : List Char) (h : ∀ c ∈ cs, isDigitCh c = true) :
    trimWsChars cs = cs := by
  have hws : ∀ c ∈ cs, isJsonWs c = false := fun c hc => not_ws_of_digit c (h c hc)
  rw [trimWsChars, dropWhile_eq_self_of_none _ _ hws,
    dropWhile_eq_self_of_none _ _ (fun c hc => hws c (List.mem_reverse.mp hc)),
    List.reverse_reverse]

/-- Function `takeDigits` consumes an all-digit string entirely. -/
theorem takeDigits_all (cs : List Char) (h : ∀ c ∈ cs, isDigitCh c = true) :
    takeDigits cs = (cs, []) := by
  induction cs with
  | nil => rfl
  | cons c t ih =>
    simp only [takeDigits, h c (List.mem_cons_self c t), if_true,
      ih (fun x hx => h x (List.mem_cons.mpr (Or.inr hx)))]

/-- A bare positive decimal integer is valid JSON, parses to a number, fails
the object shape check, and so `parseLockInfo` returns null for it — the
legacy `parseInt` fallback is never reached. -/
theorem parseLockInfo_bare_int (content : String) (h : isBareDecInt content = true) :
    parseLockInfo content = none := by
  rcases hd : content.data with _ | ⟨c, cs⟩
  · rw [isBareDecInt, hd] at h; cases h
  · rw [isBareDecInt, hd] at h
    simp only [Bool.and_eq_true, decide_eq_true_iff, List.all_eq_true] at h
    rcases h with ⟨⟨h1, h9⟩, hall⟩
    have hcdig : isDigitCh c = true := by
      rw [isDigitCh]
      have h0 : ('0' : Char) ≤ c := le_trans (by decide) h1
      simp only [Bool.and_eq_true, decide_eq_true_iff]
      exact ⟨h0, h9⟩
    have halldig : ∀ x ∈ c :: cs, isDigitCh x = true := by
      intro x hx
      rcases List.mem_cons.mp hx with hx | hx
      · rw [hx]; exact hcdig
      · exact hall x hx
    have hlb : ¬ c = lbrace := fun e => by
      rw [e] at h9; exact absurd h9 (by decide)
    have hminus : ¬ c = '-' := fun e => by
      rw [e] at h1; exact absurd h1 (by decide)
    have hzero : ¬ c = '0' := fun e => by
      rw [e] at h1; exact absurd h1 (by decide)
    have hnum : isJsonNumber (c :: cs) = true := by
      rw [isJsonNumber, parseJsonInt, if_neg hminus, parseJsonIntNonneg,
        if_neg hzero, if_pos hcdig,
        takeDigits_all cs (fun x hx => hall x hx)]
      rfl
    rw [parseLockInfo, jsonParseLock, hd, trimWs_digits (c :: cs) halldig,
      parseLockObj, if_neg hlb, hnum]
    rfl

/-- C10 counterexample: the lock marker content `"42"` is a bare positive
decimal integer, but parsing yields null — not a lock with PID 42 and
timestamp 0 as the claim states (`JSON.parse("42")` succeeds with a number,
which fails the object shape check, so the legacy `parseInt` branch never
runs). -/
theorem parseLockInfo_bare_int_cex :
    parseLockInfo "42" = none ∧ parseLockInfo "42" ≠ some ⟨42, 0⟩ := by decide

/-- C10 (as amended): for lock marker content that is a bare positive decimal
integer, `parseLockInfo` returns null (treated as invalid content, not as a
legacy lock with timestamp 0), and `acquireLock` by any process therefore
removes the marker and acquires the lock on the next iteration, regardless of
whether the recorded process is still running. -/
theorem bare_int_marker_removed (env : LockEnv) (start : Int) (content : String)
    (fuel : Nat) (h : isBareDecInt content = true) :
    parseLockInfo content = none ∧
    acquireLock env start (fuel + 2) start (some content) =
      some (true, some (stringifyLockInfo ⟨env.pid, start⟩)) := by
  have hnone := parseLockInfo_bare_int content h
  refine ⟨hnone, ?_⟩
  rw [acquireLock, if_pos (by rw [LOCK_TIMEOUT_MS]; omega)]
  show (match parseLockInfo content with
    | some li => _
    | none => acquireLock env start (fuel + 1) start none) = _
  rw [hnone]
  show acquireLock env start (fuel + 1) start none = _
  rw [acquireLock, if_pos (by rw [LOCK_TIMEOUT_MS]; omega)]

/-- Closed instance of `bare_int_marker_removed` at content `"42"`. -/
theorem bare_int_marker_removed_witness :
    isBareDecInt "42" = true ∧
    (parseLockInfo "42" = none ∧
      acquireLock ⟨7, false, fun _ => true⟩ 0 2 0 (some "42") =
        some (true, some (stringifyLockInfo ⟨7, 0⟩))) :=
  ⟨by decide, bare_int_marker_removed ⟨7, false, fun _ => true⟩ 0 "42" 0 (by decide)⟩

/-- A list is an initial segment of itself extended by anything. -/
theorem startsWithList_append (l t : List Char) : startsWithList l (l ++ t) = true := by
  induction l with
  | nil => rfl
  | cons c cs ih => simp [startsWithList, ih]

/-- C7 counterexample: `loadRepoCache` throws for the source name `"../evil"`
(and any name rejected by `isValidConfigRepoName`), because `getCachePath`
throws on an invalid repository name before the tolerant read runs — so it is
not the case that load never throws for every source name. -/
theorem loadRepoCache_invalid_name_throws :
    loadRepoCache (fun _ => CacheFile.absent) "../evil" =
      .error "Invalid repository name: ../evil" := by decide

/-- C7 (as amended): for every source name accepted by
`isValidConfigRepoName` (the only names a configured source can carry, since
config mutation validates them), `loadRepoCache` never throws: it returns
`[]` whenever the cache file is absent, unreadable, or structurally invalid,
and the cached bundle list otherwise. -/
theorem loadRepoCache_valid_total (fs : String → CacheFile) (name : String)
    (h : isValidConfigRepoName name = true) :
    loadRepoCache fs name =
      .ok (cacheSkillsOf (fs (getReposCacheDir ++ "/" ++ name ++ ".json"))) := by
  have hassoc : getReposCacheDir ++ "/" ++ name ++ ".json"
      = (getReposCacheDir ++ "/") ++ (name ++ ".json") := by
    rw [String.append_assoc]
  have hwithin :
      isPathWithin getReposCacheDir (getReposCacheDir ++ "/" ++ name ++ ".json") = true := by
    rw [isPathWithin, hassoc, Bool.or_eq_true]
    right
    rw [String.data_append]
    exact startsWithList_append (getReposCacheDir ++ "/").data (name ++ ".json").data
  have hpath : getCachePath name
      = .ok (getReposCacheDir ++ "/" ++ name ++ ".json") := by
    rw [getCachePath, if_neg (by rw [h]; intro hh; cases hh),
      if_neg (by rw [hwithin]; intro hh; cases hh)]
  rw [loadRepoCache, hpath]
  cases hf : fs (getReposCacheDir ++ "/" ++ name ++ ".json") <;> simp [hf, cacheSkillsOf]

/-- Closed instance of `loadRepoCache_valid_total`: a valid source name with
an absent cache file loads as the empty list without throwing. -/
theorem loadRepoCache_valid_total_witness :
    isValidConfigRepoName "anthropic-official" = true ∧
    loadRepoCache (fun _ => CacheFile.absent) "anthropic-official" = .ok [] :=
  ⟨by decide,
    loadRepoCache_valid_total (fun _ => CacheFile.absent) "anthropic-official" (by decide)⟩

end OpenSkill
